import Mathlib

/-!
Verification development for the `bikram` library (Bikram Samwat dates).

Shallow embedding of `src/bikram/bikram.py` and `src/bikram/constants/__init__.py`.

Modelling conventions:
* A `datetime.date` value is represented by its signed day offset (an `Int`)
  from the anchor reference date `date(1944, 1, 1)` (`AD_SCALE` in the source).
  Date subtraction and `timedelta` addition are then integer subtraction and
  addition, exactly as in Python.  The Gregorian year of such an ordinal is
  computed by `adYear` below, walking year lengths from 1944.
* Python strings are `List Char`; all functions are fuel-based structural
  recursions so that concrete instances evaluate inside the kernel.
* Fallible Python code (raising `ValueError` / `KeyError` / `re.error`)
  returns `Except` with one constructor per distinct failure site.
-/

/-- Gregorian leap year test (the rule `datetime.date` implements). -/
def gregLeap (y : Int) : Bool :=
  (y % 4 == 0 && y % 100 != 0) || y % 400 == 0

/-- Number of days of a Gregorian year. -/
def daysInYear (y : Int) : Int :=
  if gregLeap y then 366 else 365

/-- Walk forward from year `y`: the Gregorian year containing the day that is
`n` days (with `0 ≤ n`) after January 1 of year `y`.  Fuel-based; any fuel
larger than the number of crossed years gives the true answer. -/
def yearFwdAux : Nat → Int → Int → Int
  | 0, y, _ => y
  | f + 1, y, n => if n < daysInYear y then y else yearFwdAux f (y + 1) (n - daysInYear y)

/-- Walk backward from year `y`: the Gregorian year containing the day that is
`-n` days before January 1 of year `y` (for `n < 0`). -/
def yearBwdAux : Nat → Int → Int → Int
  | 0, y, _ => y - 1
  | f + 1, y, n =>
    if 0 ≤ n + daysInYear (y - 1) then y - 1 else yearBwdAux f (y - 1) (n + daysInYear (y - 1))

/-- The Gregorian year of the date `date(1944, 1, 1) + n days`; this embeds the
`date_in_ad.year` attribute read by `convert_ad_to_bs`. -/
def adYear (n : Int) : Int :=
  if 0 ≤ n then yearFwdAux (n.toNat + 1) 1944 n else yearBwdAux ((-n).toNat + 1) 1944 n

/-- Total length in days of the `k` consecutive Gregorian years starting at `y`. -/
def sumDaysFrom (y : Int) : Nat → Int
  | 0 => 0
  | k + 1 => daysInYear y + sumDaysFrom (y + 1) k

/-- Modelled from the spec: the `BS_YEAR_TO_MONTHS` calendar table
(`bikram/constants/calendar_data.py` is not present under `src/`).  Per the
spec it is an immutable mapping from each supported local (B.S.) year to the
twelve month-length integers of that year (index 0 of each row unused).  It is
modelled as a total function from year and month number to month length;
claims that depend on actual table data take the spec-stated properties
(positivity, the anchor day being valid) as hypotheses. -/
def BsTable : Type := Int → Int → Int

/-- The `samwat` class: a Bikram Samwat date triple with an optional cached
A.D. equivalent (the `_ad` slot), which here is a cached date ordinal. -/
structure samwat where
  year : Int
  month : Int
  day : Int
  _ad : Option Int
deriving DecidableEq

/-- Errors raised by the two converters: the two range `ValueError`s, plus an
out-of-fuel marker that models non-termination / a table miss (`KeyError`)
of the normalization loop, which cannot happen for a table with positive
month lengths. -/
inductive ConvErr
  | adRange
  | bsRange
  | noFuel
deriving DecidableEq

/-- The `while day > BS_YEAR_TO_MONTHS[year][month]` normalization loop of
`convert_ad_to_bs`: subtract the current month length and advance the month,
rolling the year over after month 12. -/
def bsNormalize (T : BsTable) : Nat → Int → Int → Int → Option (Int × Int × Int)
  | 0, y, m, d => if T y m < d then none else some (y, m, d)
  | f + 1, y, m, d =>
    if T y m < d then
      if m = 12 then bsNormalize T f (y + 1) 1 (d - T y m)
      else bsNormalize T f y (m + 1) (d - T y m)
    else some (y, m, d)

/-- `convert_ad_to_bs`: range-check the A.D. year, then walk the month table
from the anchor `BS_SCALE = samwat(2000, 9, 17)` adding the day offset from
`AD_SCALE = date(1944, 1, 1)`.  Returns the result with the A.D. input cached
in `_ad`, as the source does. -/
def convert_ad_to_bs (T : BsTable) (n : Int) : Except ConvErr samwat :=
  if 1944 > adYear n ∨ adYear n > 2033 then .error .adRange
  else
    match bsNormalize T (17 + n).toNat 2000 9 (17 + n) with
    | some (y, m, d) => .ok ⟨y, m, d, some n⟩
    | none => .error .noFuel

/-- Sum of `k` consecutive month lengths of local year `y` starting at month
`m`; embeds the Python slice sums over `BS_YEAR_TO_MONTHS[y]`. -/
def sumMonthsFrom (T : BsTable) (y : Int) (m : Int) : Nat → Int
  | 0 => 0
  | k + 1 => T y m + sumMonthsFrom T y (m + 1) k

/-- The `while year >= BS_SCALE.year` loop of `convert_bs_to_ad`: walk years
downward, adding full-year totals, and for the anchor year 2000 only the
months after the anchor month plus the remainder of the anchor month. -/
def bsYearLoop (T : BsTable) : Nat → Int → Int → Int
  | 0, _, days => days
  | f + 1, year, days =>
    if 2000 ≤ year then
      if year = 2000 then
        bsYearLoop T f (year - 1) (days + sumMonthsFrom T 2000 10 3 + (T 2000 9 - 17))
      else
        bsYearLoop T f (year - 1) (days + sumMonthsFrom T year 1 12)
    else days

/-- Python slice `BS_YEAR_TO_MONTHS[y][1:month]` summed: months `1 .. month-1`,
clamped to the twelve entries like a slice of the 13-tuple. -/
def sliceSumBelow (T : BsTable) (y : Int) (month : Int) : Int :=
  sumMonthsFrom T y 1 (min (month - 1).toNat 12)

/-- `convert_bs_to_ad`: range-check the B.S. year, accumulate the day-of-year
count, then run the downward year walk, and add the total to `AD_SCALE`
(ordinal 0). -/
def convert_bs_to_ad (T : BsTable) (s : samwat) : Except ConvErr Int :=
  if 2000 > s.year ∨ s.year > 2089 then .error .bsRange
  else .ok (bsYearLoop T (s.year - 1999).toNat (s.year - 1) (s.day + sliceSumBelow T s.year s.month))

/-- The `samwat.ad` property: return the cached equivalent if present,
otherwise convert (the memoizing write has no observable effect beyond the
returned value and is dropped in this pure embedding). -/
def samwat.adProp (T : BsTable) (s : samwat) : Except ConvErr Int :=
  match s._ad with
  | some n => .ok n
  | none => convert_bs_to_ad T s

/-- `samwat.__eq__` against a `datetime.date`: `self.ad == other`. -/
def samwat.eqDate (T : BsTable) (s : samwat) (g : Int) : Except ConvErr Bool :=
  (s.adProp T).map (fun a => a == g)

/-- `samwat.__lt__` against a `datetime.date`: the source returns
`self.ad <= other` (note the non-strict comparison in the source). -/
def samwat.ltDate (T : BsTable) (s : samwat) (g : Int) : Except ConvErr Bool :=
  (s.adProp T).map (fun a => decide (a ≤ g))

/-- `samwat.__eq__` against another `samwat`: tuple equality of the triples. -/
def samwat.eqSam (s t : samwat) : Prop :=
  s.year = t.year ∧ s.month = t.month ∧ s.day = t.day

instance (s t : samwat) : Decidable (s.eqSam t) := by
  unfold samwat.eqSam; infer_instance

/-- `samwat.__lt__` against another `samwat`: Python tuple comparison, i.e.
lexicographic order on the `(year, month, day)` triple. -/
def samwat.ltSam (s t : samwat) : Prop :=
  s.year < t.year ∨ (s.year = t.year ∧ (s.month < t.month ∨ (s.month = t.month ∧ s.day < t.day)))

instance (s t : samwat) : Decidable (s.ltSam t) := by
  unfold samwat.ltSam; infer_instance

/-- Python truthiness defaulting `arg or attr` used by `samwat.replace`:
`None` and `0` both fall back to the attribute. -/
def pyOrDefault (o : Option Int) (dflt : Int) : Int :=
  match o with
  | none => dflt
  | some v => if v = 0 then dflt else v

/-- `samwat.replace`: build a new `samwat` from `year or self.year` etc.; the
cached `_ad` is not carried over. -/
def samwat.replace (s : samwat) (year month day : Option Int) : samwat :=
  ⟨pyOrDefault year s.year, pyOrDefault month s.month, pyOrDefault day s.day, none⟩

/-- A sample calendar table (every month 30 days) used to instantiate the
abstract table in witnesses and concrete counterexamples. -/
def sampleTable : BsTable := fun _ _ => 30

deriving instance DecidableEq for Except

/-! ### String model: tokenizer, pattern compiler, matcher, parse and strftime -/

/- Character classes -/

def isDevDigit (c : Char) : Bool := 2406 ≤ c.toNat && c.toNat ≤ 2415

def isPyDigit (c : Char) : Bool := c.isDigit || isDevDigit c

def isWordChar (c : Char) : Bool :=
  c.isAlphanum || c = '_' || (2304 ≤ c.toNat && c.toNat ≤ 2431)

def devToEngChar (c : Char) : Char :=
  if isDevDigit c then Char.ofNat (c.toNat - 2406 + 48) else c

def engToDevChar (c : Char) : Char :=
  if c.isDigit then Char.ofNat (c.toNat - 48 + 2406) else c

def pyDigitVal (c : Char) : Option Nat :=
  if c.isDigit then some (c.toNat - 48)
  else if isDevDigit c then some (c.toNat - 2406)
  else none

def digitsOf : List Char → Option (List Nat)
  | [] => some []
  | c :: r =>
    match pyDigitVal c, digitsOf r with
    | some d, some ds => some (d :: ds)
    | _, _ => none

def strToIntQ (s : List Char) : Option Int :=
  if s.isEmpty then none
  else (digitsOf s).map (fun ds => ((ds.foldl (fun a d => a * 10 + d) 0 : Nat) : Int))

/- str(int) and padding -/

def natToStrAux : Nat → Nat → List Char
  | 0, _ => []
  | f + 1, n => if n < 10 then [Nat.digitChar n] else natToStrAux f (n / 10) ++ [Nat.digitChar (n % 10)]

def natToStr (n : Nat) : List Char := natToStrAux (n + 1) n

def intToStr (i : Int) : List Char :=
  if i < 0 then '-' :: natToStr (-i).toNat else natToStr i.toNat

def pyZfill (w : Nat) (s : List Char) : List Char :=
  if w ≤ s.length then s
  else if s.head? = some '-' then '-' :: (List.replicate (w - s.length) '0' ++ s.tail)
  else List.replicate (w - s.length) '0' ++ s

def pyRjust (w : Nat) (s : List Char) : List Char :=
  if w ≤ s.length then s else List.replicate (w - s.length) ' ' ++ s

def pyReplaceF : Nat → List Char → List Char → List Char → List Char
  | 0, s, _, _ => s
  | f + 1, s, pat, rep =>
    match s with
    | [] => []
    | c :: r =>
      if pat.isPrefixOf s then rep ++ pyReplaceF f (s.drop pat.length) pat rep
      else c :: pyReplaceF f r pat rep

def pyReplace (s pat rep : List Char) : List Char := pyReplaceF s.length s pat rep

/- Tokenizer -/

def takeWordChars : Nat → List Char → List Char × List Char
  | 0, s => ([], s)
  | _ + 1, [] => ([], [])
  | k + 1, c :: r =>
    if isWordChar c then
      let p := takeWordChars k r
      (c :: p.1, p.2)
    else ([], c :: r)

def tokenize : Nat → List Char → List (List Char)
  | 0, _ => []
  | _ + 1, [] => []
  | f + 1, c :: rest =>
    if c = '%' then
      match rest with
      | '-' :: r2 =>
        let w := takeWordChars 3 r2
        if w.1.isEmpty then tokenize f rest
        else ('%' :: '-' :: w.1) :: tokenize f w.2
      | _ =>
        let w := takeWordChars 3 rest
        if w.1.isEmpty then tokenize f rest
        else ('%' :: w.1) :: tokenize f w.2
    else tokenize f rest

def removeNe : List Char → List Char
  | 'n' :: 'e' :: r => removeNe r
  | c :: r => c :: removeNe r
  | [] => []

def normalizeCode (c : List Char) : List Char :=
  (removeNe (c.filter (fun ch => ch != '%' && ch != '-'))).map Char.toLower

/- Month name tables -/

def monthNamesFull : List String :=
  ["Baisakh", "Jestha", "Ashadh", "Shrawan", "Bhadra", "Ashwin", "Kartik",
   "Mangsir", "Poush", "Magh", "Falgun", "Chaitra"]

def monthNamesAbbr : List String :=
  ["Bai", "Jes", "Ash", "Shr", "Bha", "Ash", "Kar", "Man", "Pou", "Mag", "Fal", "Cha"]

def monthNamesDev : List String :=
  ["वैशाख", "जेष्ठ", "आषाढ़", "श्रावण", "भाद्र", "आश्विन", "कार्तिक",
   "मंसिर", "पौष", "माघ", "फाल्गुन", "चैत्र"]

def lowerStr (s : List Char) : List Char := s.map Char.toLower

def fullL : List (List Char) := monthNamesFull.map String.toList
def abbrL : List (List Char) := monthNamesAbbr.map String.toList
def devL : List (List Char) := monthNamesDev.map String.toList

def monthAlternatives : List (List Char) :=
  fullL ++ fullL.map lowerStr ++ abbrL ++ abbrL.map lowerStr ++ devL

def enumNames (l : List (List Char)) : List (List Char × Int) :=
  l.enum.map (fun p => (p.2, (p.1 : Int)))

def withEmpty (l : List (List Char)) : List (List Char) := [] :: l

def monthNamePairs : List (List Char × Int) :=
  enumNames (withEmpty fullL) ++ enumNames (withEmpty (fullL.map lowerStr)) ++
  enumNames (withEmpty abbrL) ++ enumNames (withEmpty (abbrL.map lowerStr)) ++
  enumNames (withEmpty devL)

def nameToNum (s : List Char) : Option Int := (monthNamePairs.reverse).lookup s

def monthNumName (l : List (List Char)) (i : Int) : Option (List Char) :=
  (l.enum.map (fun p => (((p.1 : Int) + 1 : Int), p.2))).lookup i

/- Pattern compilation -/

inductive GName | y | sy | ney | m | nem | ml | day | ned
deriving DecidableEq

inductive GKind | digits (lo hi : Nat) | dev (lo hi : Nat) | name
deriving DecidableEq

inductive PatItem | grp (n : GName) (k : GKind) | dot
deriving DecidableEq

inductive ParseErr
  | invalidCount
  | invalidCode (c : List Char)
  | reDupGroup
  | noMatch
  | emptyDict
  | unknownName
  | emptyDev
  | intFail
  | missingKey
deriving DecidableEq

def codeItem (c : List Char) : Option (GName × GKind) :=
  match c with
  | ['%', 'd'] => some (.day, .digits 2 2)
  | ['%', '-', 'd'] => some (.day, .digits 1 2)
  | ['%', 'd', 'n', 'e'] => some (.ned, .dev 2 2)
  | ['%', '-', 'd', 'n', 'e'] => some (.ned, .dev 1 2)
  | ['%', 'm'] => some (.m, .digits 2 2)
  | ['%', '-', 'm'] => some (.m, .digits 1 2)
  | ['%', 'm', 'n', 'e'] => some (.nem, .dev 2 2)
  | ['%', '-', 'm', 'n', 'e'] => some (.nem, .dev 1 2)
  | ['%', 'y'] => some (.sy, .digits 2 2)
  | ['%', 'Y'] => some (.y, .digits 4 4)
  | ['%', 'y', 'n', 'e'] => some (.ney, .dev 2 2)
  | ['%', 'Y', 'n', 'e'] => some (.ney, .dev 4 4)
  | ['%', 'B'] => some (.ml, .name)
  | _ => none

def collectItems : List (List Char) → Except ParseErr (List (GName × GKind))
  | [] => .ok []
  | c :: cs =>
    match codeItem c with
    | none => .error (.invalidCode c)
    | some g => (collectItems cs).map (g :: ·)

def getPatternFromCodes (codes : List (List Char)) : Except ParseErr (List PatItem) :=
  (collectItems codes).bind (fun gs =>
    let names := gs.map (fun g => g.1)
    if names.dedup.length ≠ names.length then .error .reDupGroup
    else .ok (List.intersperse PatItem.dot (gs.map (fun g => PatItem.grp g.1 g.2))))

/- Matcher -/

def lensDesc (lo hi : Nat) : List Nat := (List.range (hi + 1 - lo)).map (fun i => hi - i)

def splitLen (p : Char → Bool) : Nat → List Char → Option (List Char × List Char)
  | 0, s => some ([], s)
  | _ + 1, [] => none
  | k + 1, c :: r =>
    if p c then (splitLen p k r).map (fun pr => (c :: pr.1, pr.2)) else none

def firstSomeQ : List α → (α → Option β) → Option β
  | [], _ => none
  | a :: as, f =>
    match f a with
    | some b => some b
    | none => firstSomeQ as f

def dropLit : List Char → List Char → Option (List Char)
  | [], s => some s
  | _ :: _, [] => none
  | c :: cs, x :: xs => if x = c then dropLit cs xs else none

def matchItems : Nat → List PatItem → List Char → Option (List (GName × List Char))
  | 0, _, _ => none
  | _ + 1, [], _ => some []
  | _ + 1, .dot :: _, [] => none
  | f + 1, .dot :: its, c :: r => if c = '\n' then none else matchItems f its r
  | f + 1, .grp nm (.digits lo hi) :: its, s =>
    firstSomeQ (lensDesc lo hi) (fun len =>
      (splitLen isPyDigit len s).bind (fun pr =>
        (matchItems f its pr.2).map (fun caps => (nm, pr.1) :: caps)))
  | f + 1, .grp nm (.dev lo hi) :: its, s =>
    firstSomeQ (lensDesc lo hi) (fun len =>
      (splitLen isDevDigit len s).bind (fun pr =>
        (matchItems f its pr.2).map (fun caps => (nm, pr.1) :: caps)))
  | f + 1, .grp nm .name :: its, s =>
    firstSomeQ monthAlternatives (fun w =>
      (dropLit w s).bind (fun rest =>
        (matchItems f its rest).map (fun caps => (nm, w) :: caps)))

/- Parse -/

inductive DVal | str (s : List Char) | int (i : Int)
deriving DecidableEq

def dictSet (d : List (GName × DVal)) (k : GName) (v : DVal) : List (GName × DVal) :=
  (k, v) :: d.filter (fun p => p.1 != k)

def applyMl (d : List (GName × DVal)) : Except ParseErr (List (GName × DVal)) :=
  match d.lookup .ml with
  | some (.str s) =>
    match nameToNum s with
    | some k => .ok (dictSet d .m (.int k))
    | none => .error .unknownName
  | some (.int _) => .ok d
  | none => .ok d

def applySy (d : List (GName × DVal)) : Except ParseErr (List (GName × DVal)) :=
  match d.lookup .sy with
  | some (.str s) =>
    match strToIntQ ('2' :: '0' :: s) with
    | some k => .ok (dictSet d .y (.int k))
    | none => .error .intFail
  | some (.int _) => .ok d
  | none => .ok d

def applyDev (src dst : GName) (d : List (GName × DVal)) : Except ParseErr (List (GName × DVal)) :=
  match d.lookup src with
  | some (.str s) =>
    if s.isEmpty then .error .emptyDev
    else
      match strToIntQ (s.map devToEngChar) with
      | some k => .ok (dictSet d dst (.int k))
      | none => .error .intFail
  | some (.int _) => .ok d
  | none => .ok d

def dvalToInt : DVal → Option Int
  | .str s => strToIntQ s
  | .int i => some i

def finishParse (d : List (GName × DVal)) : Except ParseErr samwat :=
  match d.lookup .y, d.lookup .m, d.lookup .day with
  | some vy, some vm, some vd =>
    match dvalToInt vy, dvalToInt vm, dvalToInt vd with
    | some a, some b, some c => .ok ⟨a, b, c, none⟩
    | _, _, _ => .error .intFail
  | _, _, _ => .error .missingKey

def parseAfterMatch (caps : List (GName × List Char)) : Except ParseErr samwat :=
  if caps.isEmpty then .error .emptyDict
  else
    (applyMl (caps.map (fun pr => (pr.1, DVal.str pr.2)))).bind (fun d1 =>
      (applySy d1).bind (fun d2 =>
        (applyDev .ney .y d2).bind (fun d3 =>
          (applyDev .nem .m d3).bind (fun d4 =>
            (applyDev .ned .day d4).bind finishParse))))

def parseRest (codes : List (List Char)) (datestr : List Char) : Except ParseErr samwat :=
  (getPatternFromCodes codes).bind (fun items =>
    match matchItems (items.length + 1) items datestr with
    | none => .error .noMatch
    | some caps => parseAfterMatch caps)

def samwat.parse (datestr parsestr : List Char) : Except ParseErr samwat :=
  if (((tokenize parsestr.length parsestr).map normalizeCode).dedup.length ≠ 3) then
    .error .invalidCount
  else parseRest (tokenize parsestr.length parsestr) datestr

/- Format -/

inductive FmtErr | badCode (c : List Char) | badMonth
deriving DecidableEq

def toStrConv (s : samwat) (c : List Char) : Except FmtErr (List Char) :=
  match c with
  | ['%', 'd'] => .ok (pyZfill 2 (intToStr s.day))
  | ['%', '-', 'd'] => .ok (pyRjust 2 (intToStr s.day))
  | ['%', 'd', 'n', 'e'] => .ok ((pyZfill 2 (intToStr s.day)).map engToDevChar)
  | ['%', '-', 'd', 'n', 'e'] => .ok ((pyRjust 2 (intToStr s.day)).map engToDevChar)
  | ['%', 'm'] => .ok (pyZfill 2 (intToStr s.month))
  | ['%', '-', 'm'] => .ok (pyRjust 2 (intToStr s.month))
  | ['%', 'm', 'n', 'e'] => .ok ((pyZfill 2 (intToStr s.month)).map engToDevChar)
  | ['%', '-', 'm', 'n', 'e'] => .ok ((pyRjust 2 (intToStr s.month)).map engToDevChar)
  | ['%', 'y'] => .ok ((intToStr s.year).drop 2)
  | ['%', 'Y'] => .ok (intToStr s.year)
  | ['%', 'y', 'n', 'e'] => .ok (((intToStr s.year).drop 2).map engToDevChar)
  | ['%', 'Y', 'n', 'e'] => .ok ((intToStr s.year).map engToDevChar)
  | ['%', 'B'] =>
    match monthNumName fullL s.month with
    | some nm => .ok nm
    | none => .error .badMonth
  | ['%', 'B', 'n', 'e'] =>
    match monthNumName devL s.month with
    | some nm => .ok nm
    | none => .error .badMonth
  | _ => .error (.badCode c)

def strftimeGo (s : samwat) : List (List Char) → List Char → Except FmtErr (List Char)
  | [], acc => .ok acc
  | c :: cs, acc =>
    match toStrConv s c with
    | .error e => .error e
    | .ok rep => strftimeGo s cs (pyReplace acc c rep)

def samwat.strftime (s : samwat) (fstr : List Char) : Except FmtErr (List Char) :=
  strftimeGo s (tokenize fstr.length fstr) fstr

/-! ### Derived pattern values and claim-side definitions -/

/-- The compiled pattern the source builds for `"%Y-%m-%d"`: the three digit
groups joined by the any-character regex dot. -/
def ymdItems : List PatItem :=
  [.grp .y (.digits 4 4), .dot, .grp .m (.digits 2 2), .dot, .grp .day (.digits 2 2)]

/-- The compiled pattern the source builds for `"%y-%m-%d"`. -/
def syItems : List PatItem :=
  [.grp .sy (.digits 2 2), .dot, .grp .m (.digits 2 2), .dot, .grp .day (.digits 2 2)]

/-- Claim-side notion (follows the words of claim C5, not the source): the
three field categories day, month, year. -/
inductive FieldCat | fday | fmonth | fyear
deriving DecidableEq

/-- Claim-side notion: the field category denoted by a directive token,
obtained by normalizing the token; the month-name directive (normalized "b")
denotes the month field just as the numeric month directives do. -/
def claimFieldCat (c : List Char) : Option FieldCat :=
  match normalizeCode c with
  | ['d'] => some .fday
  | ['m'] => some .fmonth
  | ['b'] => some .fmonth
  | ['y'] => some .fyear
  | _ => none

/-- Claim-side notion: the number of distinct field categories among the
directive tokens of a pattern. -/
def claimCatCount (ps : List Char) : Nat :=
  ((tokenize ps.length ps).filterMap claimFieldCat).dedup.length

/-- Lexicographic (Python tuple) order on year-month-day triples. -/
def tripleLt (p q : Int × Int × Int) : Prop :=
  p.1 < q.1 ∨ (p.1 = q.1 ∧ (p.2.1 < q.2.1 ∨ (p.2.1 = q.2.1 ∧ p.2.2 < q.2.2)))

/-- Both normalizations succeed and the results are in strict triple order. -/
def optLt (a b : Option (Int × Int × Int)) : Prop :=
  ∃ p q, a = some p ∧ b = some q ∧ tripleLt p q

/-! ### Facts about the Gregorian year of an ordinal -/

theorem daysInYear_pos (y : Int) : 365 ≤ daysInYear y := by
  unfold daysInYear; split <;> omega

theorem yearFwdAux_ge (f : Nat) : ∀ (y n : Int), y ≤ yearFwdAux f y n := by
  induction f with
  | zero => intro y n; simp [yearFwdAux]
  | succ f ih =>
    intro y n
    unfold yearFwdAux
    split
    · omega
    · have := ih (y + 1) (n - daysInYear y); omega

theorem yearBwdAux_le (f : Nat) : ∀ (y n : Int), yearBwdAux f y n ≤ y - 1 := by
  induction f with
  | zero => intro y n; simp [yearBwdAux]
  | succ f ih =>
    intro y n
    unfold yearBwdAux
    split
    · omega
    · have := ih (y - 1) (n + daysInYear (y - 1)); omega

theorem sumDaysFrom_nonneg (k : Nat) : ∀ (y : Int), 0 ≤ sumDaysFrom y k := by
  induction k with
  | zero => intro y; simp [sumDaysFrom]
  | succ k ih =>
    intro y
    have h1 := daysInYear_pos y
    have h2 := ih (y + 1)
    unfold sumDaysFrom; omega

theorem yearFwdAux_ge_of_sum_le (f : Nat) :
    ∀ (k : Nat) (y n : Int), 0 ≤ n → sumDaysFrom y k ≤ n → k < f →
      y + k ≤ yearFwdAux f y n := by
  induction f with
  | zero => intro k y n _ _ hf; omega
  | succ f ih =>
    intro k y n h0 hs hf
    match k with
    | 0 => have := yearFwdAux_ge (f + 1) y n; omega
    | k + 1 =>
      have hd := daysInYear_pos y
      have hrest := sumDaysFrom_nonneg k (y + 1)
      unfold sumDaysFrom at hs
      unfold yearFwdAux
      rw [if_neg (by omega)]
      have := ih k (y + 1) (n - daysInYear y) (by omega) (by omega) (by omega)
      omega

theorem yearFwdAux_lt_of_lt_sum (f : Nat) :
    ∀ (k : Nat) (y n : Int), 0 ≤ n → n < sumDaysFrom y k →
      yearFwdAux f y n < y + k := by
  induction f with
  | zero =>
    intro k y n h0 hs
    match k with
    | 0 => simp [sumDaysFrom] at hs; omega
    | k + 1 => show y < y + (_ + 1 : Nat); omega
  | succ f ih =>
    intro k y n h0 hs
    match k with
    | 0 => simp [sumDaysFrom] at hs; omega
    | k + 1 =>
      unfold yearFwdAux
      split
      · omega
      · unfold sumDaysFrom at hs
        have := ih k (y + 1) (n - daysInYear y) (by omega) (by omega)
        omega

theorem adYear_ge_iff (n : Int) : 1944 ≤ adYear n ↔ 0 ≤ n := by
  unfold adYear
  split
  · have := yearFwdAux_ge (n.toNat + 1) 1944 n; omega
  · have := yearBwdAux_le ((-n).toNat + 1) 1944 n; omega

set_option maxRecDepth 20000 in
theorem sumDaysFrom_1944_90 : sumDaysFrom 1944 90 = 32873 := by decide

theorem adYear_le_iff (n : Int) : adYear n ≤ 2033 ↔ n ≤ 32872 := by
  unfold adYear
  split
  case isTrue h0 =>
    constructor
    · intro hy
      by_contra hn
      have h90 : (90 : Nat) < n.toNat + 1 := by omega
      have := yearFwdAux_ge_of_sum_le (n.toNat + 1) 90 1944 n h0
        (by rw [sumDaysFrom_1944_90]; omega) h90
      omega
    · intro hn
      have := yearFwdAux_lt_of_lt_sum (n.toNat + 1) 90 1944 n h0
        (by rw [sumDaysFrom_1944_90]; omega)
      omega
  case isFalse h0 =>
    have := yearBwdAux_le ((-n).toNat + 1) 1944 n
    constructor <;> intro <;> omega

/-- The range test of `convert_ad_to_bs`, rephrased on ordinals: the A.D. year
is out of `[1944, 2033]` exactly when the ordinal is out of `[0, 32872]`. -/
theorem adRange_iff (n : Int) :
    (1944 > adYear n ∨ adYear n > 2033) ↔ (n < 0 ∨ 32872 < n) := by
  have h1 := adYear_ge_iff n
  have h2 := adYear_le_iff n
  omega

/-! ### Facts about the month-walk normalization loop -/

theorem tripleLt_trans {p q r : Int × Int × Int} (h1 : tripleLt p q) (h2 : tripleLt q r) :
    tripleLt p r := by
  unfold tripleLt at *
  rcases h1 with h1 | ⟨e1, h1⟩ <;> rcases h2 with h2 | ⟨e2, h2⟩
  · left; omega
  · left; omega
  · left; omega
  · right
    refine ⟨by omega, ?_⟩
    rcases h1 with h1 | ⟨f1, h1⟩ <;> rcases h2 with h2 | ⟨f2, h2⟩
    · left; omega
    · left; omega
    · left; omega
    · right; exact ⟨by omega, by omega⟩

theorem bsNormalize_fuelEq (T : BsTable) (hT : ∀ y m, 1 ≤ T y m) (f : Nat) :
    ∀ (g : Nat) (y m d : Int), 1 ≤ d → d ≤ (f : Int) + 1 → d ≤ (g : Int) + 1 →
      bsNormalize T f y m d = bsNormalize T g y m d := by
  induction f with
  | zero =>
    intro g y m d h1 hf hg
    have hd : d = 1 := by omega
    subst hd
    have hTm := hT y m
    match g with
    | 0 => rfl
    | g + 1 =>
      show (if T y m < 1 then _ else some (y, m, 1)) =
        (if T y m < 1 then _ else some (y, m, 1))
      rw [if_neg (by omega), if_neg (by omega)]
  | succ f ih =>
    intro g y m d h1 hf hg
    have hTm := hT y m
    by_cases hlt : T y m < d
    · have hd2 : 2 ≤ d := by omega
      match g with
      | 0 => omega
      | g + 1 =>
        show (if T y m < d then _ else _) = (if T y m < d then _ else _)
        rw [if_pos hlt, if_pos hlt]
        by_cases hm : m = 12
        · rw [if_pos hm, if_pos hm]
          exact ih g (y + 1) 1 (d - T y m) (by omega) (by omega) (by omega)
        · rw [if_neg hm, if_neg hm]
          exact ih g y (m + 1) (d - T y m) (by omega) (by omega) (by omega)
    · match g with
      | 0 =>
        show (if T y m < d then _ else some (y, m, d)) =
          (if T y m < d then _ else some (y, m, d))
        rw [if_neg hlt, if_neg hlt]
      | g + 1 =>
        show (if T y m < d then _ else some (y, m, d)) =
          (if T y m < d then _ else some (y, m, d))
        rw [if_neg hlt, if_neg hlt]

theorem bsNormalize_step (T : BsTable) (hT : ∀ y m, 1 ≤ T y m) (f : Nat) :
    ∀ (y m d : Int), 1 ≤ m → m ≤ 12 → 1 ≤ d → d ≤ (f : Int) + 1 →
      optLt (bsNormalize T f y m d) (bsNormalize T (f + 1) y m (d + 1)) := by
  induction f with
  | zero =>
    intro y m d hm1 hm2 hd1 hd2
    have hd : d = 1 := by omega
    subst hd
    have hTm := hT y m
    have hL : bsNormalize T 0 y m 1 = some (y, m, 1) := by
      show (if T y m < 1 then _ else some (y, m, 1)) = _
      rw [if_neg (by omega)]
    by_cases h2 : T y m < 2
    · have hTeq : T y m = 1 := by omega
      by_cases hm : m = 12
      · have hR : bsNormalize T 1 y m 2 = some (y + 1, 1, 1) := by
          show (if T y m < 2 then if m = 12 then
              (if T (y + 1) 1 < 2 - T y m then _ else some (y + 1, 1, 2 - T y m))
            else _ else _) = _
          rw [if_pos h2, if_pos hm, hTeq, if_neg (by have := hT (y + 1) 1; omega)]
          norm_num
        exact ⟨(y, m, 1), (y + 1, 1, 1), hL, hR, Or.inl (by omega)⟩
      · have hR : bsNormalize T 1 y m 2 = some (y, m + 1, 1) := by
          show (if T y m < 2 then if m = 12 then _
            else (if T y (m + 1) < 2 - T y m then _ else some (y, m + 1, 2 - T y m))
            else _) = _
          rw [if_pos h2, if_neg hm, hTeq, if_neg (by have := hT y (m + 1); omega)]
          norm_num
        exact ⟨(y, m, 1), (y, m + 1, 1), hL, hR, Or.inr ⟨rfl, Or.inl (by show m < m + 1; omega)⟩⟩
    · have hR : bsNormalize T 1 y m 2 = some (y, m, 2) := by
        show (if T y m < 2 then _ else some (y, m, 2)) = _
        rw [if_neg h2]
      exact ⟨(y, m, 1), (y, m, 2), hL, hR, Or.inr ⟨rfl, Or.inr ⟨rfl, by show (1 : Int) < 2; omega⟩⟩⟩
  | succ f ih =>
    intro y m d hm1 hm2 hd1 hd2
    have hTm := hT y m
    by_cases hlt : T y m < d
    · -- both sides take a loop iteration with the same month advance
      have hL : bsNormalize T (f + 1) y m d =
          (if m = 12 then bsNormalize T f (y + 1) 1 (d - T y m)
           else bsNormalize T f y (m + 1) (d - T y m)) := by
        show (if T y m < d then _ else _) = _
        rw [if_pos hlt]
      have hR : bsNormalize T (f + 2) y m (d + 1) =
          (if m = 12 then bsNormalize T (f + 1) (y + 1) 1 (d + 1 - T y m)
           else bsNormalize T (f + 1) y (m + 1) (d + 1 - T y m)) := by
        show (if T y m < d + 1 then _ else _) = _
        rw [if_pos (by omega)]
      rw [hL, hR]
      by_cases hm : m = 12
      · rw [if_pos hm, if_pos hm]
        have : d + 1 - T y m = d - T y m + 1 := by omega
        rw [this]
        exact ih (y + 1) 1 (d - T y m) (by omega) (by omega) (by omega) (by omega)
      · rw [if_neg hm, if_neg hm]
        have : d + 1 - T y m = d - T y m + 1 := by omega
        rw [this]
        exact ih y (m + 1) (d - T y m) (by omega) (by omega) (by omega) (by omega)
    · have hL : bsNormalize T (f + 1) y m d = some (y, m, d) := by
        show (if T y m < d then _ else some (y, m, d)) = _
        rw [if_neg hlt]
      by_cases h2 : T y m < d + 1
      · -- boundary: d = T y m, the successor rolls into the next month
        have hd' : d + 1 - T y m = 1 := by omega
        by_cases hm : m = 12
        · have hR : bsNormalize T (f + 2) y m (d + 1) = some (y + 1, 1, 1) := by
            show (if T y m < d + 1 then if m = 12 then
                bsNormalize T (f + 1) (y + 1) 1 (d + 1 - T y m) else _ else _) = _
            rw [if_pos h2, if_pos hm, hd']
            show (if T (y + 1) 1 < 1 then _ else some (y + 1, 1, 1)) = _
            rw [if_neg (by have := hT (y + 1) 1; omega)]
          exact ⟨(y, m, d), (y + 1, 1, 1), hL, hR, Or.inl (by omega)⟩
        · have hR : bsNormalize T (f + 2) y m (d + 1) = some (y, m + 1, 1) := by
            show (if T y m < d + 1 then if m = 12 then _
              else bsNormalize T (f + 1) y (m + 1) (d + 1 - T y m) else _) = _
            rw [if_pos h2, if_neg hm, hd']
            show (if T y (m + 1) < 1 then _ else some (y, m + 1, 1)) = _
            rw [if_neg (by have := hT y (m + 1); omega)]
          exact ⟨(y, m, d), (y, m + 1, 1), hL, hR, Or.inr ⟨rfl, Or.inl (by show m < m + 1; omega)⟩⟩
      · have hR : bsNormalize T (f + 2) y m (d + 1) = some (y, m, d + 1) := by
          show (if T y m < d + 1 then _ else some (y, m, d + 1)) = _
          rw [if_neg h2]
        exact ⟨(y, m, d), (y, m, d + 1), hL, hR, Or.inr ⟨rfl, Or.inr ⟨rfl, by show d < d + 1; omega⟩⟩⟩

/-- Canonical-fuel normalization is strictly monotone in the day offset. -/
theorem bsNormalize_chain (T : BsTable) (hT : ∀ y m, 1 ≤ T y m) (k : Nat) :
    ∀ (y m d : Int), 1 ≤ m → m ≤ 12 → 1 ≤ d →
      optLt (bsNormalize T d.toNat y m d)
            (bsNormalize T (d + (k : Int) + 1).toNat y m (d + (k : Int) + 1)) := by
  induction k with
  | zero =>
    intro y m d hm1 hm2 hd
    rw [show d + ((0 : Nat) : Int) + 1 = d + 1 by push_cast; ring]
    have h := bsNormalize_step T hT d.toNat y m d hm1 hm2 hd (by omega)
    have he : bsNormalize T (d.toNat + 1) y m (d + 1) =
        bsNormalize T (d + 1).toNat y m (d + 1) :=
      bsNormalize_fuelEq T hT (d.toNat + 1) (d + 1).toNat y m (d + 1)
        (by omega) (by omega) (by omega)
    rw [← he]
    exact h
  | succ k ih =>
    intro y m d hm1 hm2 hd
    rw [show d + (((k + 1 : Nat)) : Int) + 1 = (d + (k : Int) + 1) + 1 by push_cast; ring]
    obtain ⟨p, q, hp, hq, hpq⟩ := ih y m d hm1 hm2 hd
    have hstep := bsNormalize_step T hT (d + (k : Int) + 1).toNat y m (d + (k : Int) + 1)
      hm1 hm2 (by omega) (by omega)
    obtain ⟨q2, r, hq2, hr, hqr⟩ := hstep
    rw [hq] at hq2
    have hqq : q = q2 := by injection hq2
    subst hqq
    have he : bsNormalize T ((d + (k : Int) + 1).toNat + 1) y m (d + (k : Int) + 1 + 1) =
        bsNormalize T (d + (k : Int) + 1 + 1).toNat y m (d + (k : Int) + 1 + 1) :=
      bsNormalize_fuelEq T hT ((d + (k : Int) + 1).toNat + 1) (d + (k : Int) + 1 + 1).toNat
        y m (d + (k : Int) + 1 + 1) (by omega) (by omega) (by omega)
    rw [he] at hr
    exact ⟨p, r, hp, hr, tripleLt_trans hpq hqr⟩

theorem sumMonthsFrom_nonneg (T : BsTable) (hT : ∀ y m, 1 ≤ T y m) (k : Nat) :
    ∀ (y m : Int), 0 ≤ sumMonthsFrom T y m k := by
  induction k with
  | zero => intro y m; simp [sumMonthsFrom]
  | succ k ih =>
    intro y m
    have h1 := hT y m
    have h2 := ih y (m + 1)
    unfold sumMonthsFrom; omega

/-! ### Claims C1, C2, C3, C6 -/

set_option maxRecDepth 20000 in
/-- C1: the round-trip law fails on the code.  With the modelled table
(every month 30 days) the reference anchor `date(1944, 1, 1)` (ordinal 0)
converts to the local anchor `samwat(2000, 9, 17)`, but converting that triple
back yields ordinal 257, not 0; and the local date `samwat(2000, 10, 1)`
round-trips through the reference calendar to `samwat(2001, 6, 18)`, a
different triple.  The cause: the year walk of `convert_bs_to_ad` starts at
`year - 1`, so for inputs in the anchor year 2000 the anchor-month adjustment
is never applied. -/
theorem C1_roundtrip_fails :
    (convert_ad_to_bs sampleTable 0).bind (fun s => convert_bs_to_ad sampleTable s) =
      .ok 257 ∧ (257 : Int) ≠ 0 ∧
    (convert_bs_to_ad sampleTable ⟨2000, 10, 1, none⟩).bind
        (fun n => convert_ad_to_bs sampleTable n) = .ok ⟨2001, 6, 18, some 271⟩ ∧
    ¬ samwat.eqSam ⟨2001, 6, 18, some 271⟩ ⟨2000, 10, 1, none⟩ :=
  ⟨by decide, by decide, by decide, by decide⟩

/-- C2: the anchor fixpoint holds in the reference-to-local direction but
fails in the local-to-reference direction, for every table with positive month
lengths whose anchor day is valid: `convert_ad_to_bs` maps ordinal 0
(`date(1944, 1, 1)`) to `samwat(2000, 9, 17)`, but `convert_bs_to_ad` maps
`samwat(2000, 9, 17)` to `17 + (months 1..8 of B.S. 2000)` days after the
anchor, which is never ordinal 0. -/
theorem C2_anchor_fixpoint_fails (T : BsTable) (hT : ∀ y m, 1 ≤ T y m)
    (h17 : 17 ≤ T 2000 9) :
    convert_ad_to_bs T 0 = .ok ⟨2000, 9, 17, some 0⟩ ∧
    convert_bs_to_ad T ⟨2000, 9, 17, none⟩ = .ok (17 + sumMonthsFrom T 2000 1 8) ∧
    17 + sumMonthsFrom T 2000 1 8 ≠ 0 := by
  have hsum := sumMonthsFrom_nonneg T hT 8 2000 1
  refine ⟨?_, ?_, by omega⟩
  · unfold convert_ad_to_bs
    have hy0 : adYear 0 = 1944 := by decide
    rw [if_neg (by omega)]
    have hn : bsNormalize T (17 + (0 : Int)).toNat 2000 9 (17 + (0 : Int)) =
        some (2000, 9, 17) := by
      rw [show ((17 : Int) + 0) = 17 by norm_num]
      show (if T 2000 9 < 17 then _ else some ((2000 : Int), (9 : Int), (17 : Int))) = _
      rw [if_neg (by omega)]
    rw [hn]
  · unfold convert_bs_to_ad
    rw [if_neg (by norm_num)]
    have h1 : (((2000 : Int) - 1999)).toNat = 1 := by norm_num
    have h2 : sliceSumBelow T 2000 9 = sumMonthsFrom T 2000 1 8 := by
      unfold sliceSumBelow
      rw [show min ((9 : Int) - 1).toNat 12 = 8 from by decide]
    rw [show ((2000 : Int) - 1) = 1999 by norm_num, h1, h2]
    show Except.ok (bsYearLoop T 1 1999 (17 + sumMonthsFrom T 2000 1 8)) = _
    unfold bsYearLoop
    rw [if_neg (by omega)]

/-- C2 witness: the theorem instantiated at the sample table. -/
theorem C2_anchor_fixpoint_fails_witness :
    convert_ad_to_bs sampleTable 0 = .ok ⟨2000, 9, 17, some 0⟩ ∧
    convert_bs_to_ad sampleTable ⟨2000, 9, 17, none⟩ =
      .ok (17 + sumMonthsFrom sampleTable 2000 1 8) ∧
    17 + sumMonthsFrom sampleTable 2000 1 8 ≠ 0 :=
  C2_anchor_fixpoint_fails sampleTable (fun _ _ => by norm_num [sampleTable])
    (by norm_num [sampleTable])

/-- C3: each converter raises its range `ValueError` exactly when the input
year is strictly below the lower bound or strictly above the upper bound of
its supported range (A.D. 1944..2033, B.S. 2000..2089); for in-range years no
range error is raised.  Both bounds are tested independently by the code. -/
theorem C3_range_check (T : BsTable) (n : Int) (s : samwat) :
    (convert_ad_to_bs T n = .error .adRange ↔ (adYear n < 1944 ∨ 2033 < adYear n)) ∧
    (convert_bs_to_ad T s = .error .bsRange ↔ (s.year < 2000 ∨ 2089 < s.year)) := by
  constructor
  · unfold convert_ad_to_bs
    by_cases h : 1944 > adYear n ∨ adYear n > 2033
    · rw [if_pos h]
      simp only [true_iff]
      omega
    · rw [if_neg h]
      constructor
      · intro hc
        exfalso
        cases hb : bsNormalize T (17 + n).toNat 2000 9 (17 + n) with
        | none => rw [hb] at hc; exact absurd hc (by simp)
        | some p =>
          obtain ⟨y, m, d⟩ := p
          rw [hb] at hc
          exact absurd hc (by simp)
      · intro hc; omega
  · unfold convert_bs_to_ad
    by_cases h : 2000 > s.year ∨ s.year > 2089
    · rw [if_pos h]
      simp only [true_iff]
      omega
    · rw [if_neg h]
      constructor
      · intro hc; exact absurd hc (by simp)
      · intro hc; omega

/-- C6: `convert_ad_to_bs` is strictly monotone: for two in-range reference
ordinals `n1 < n2` and any table with positive month lengths, both conversions
succeed and the resulting local dates are in strict Python-tuple
(lexicographic) order. -/
theorem C6_monotone (T : BsTable) (hT : ∀ y m, 1 ≤ T y m) (n1 n2 : Int)
    (h1a : 1944 ≤ adYear n1) (h1b : adYear n1 ≤ 2033)
    (h2a : 1944 ≤ adYear n2) (h2b : adYear n2 ≤ 2033)
    (hlt : n1 < n2) :
    ∃ s1 s2 : samwat, convert_ad_to_bs T n1 = .ok s1 ∧ convert_ad_to_bs T n2 = .ok s2 ∧
      s1.ltSam s2 := by
  have hn1 : 0 ≤ n1 := (adYear_ge_iff n1).mp h1a
  have hchain := bsNormalize_chain T hT (n2 - n1 - 1).toNat 2000 9 (17 + n1)
    (by omega) (by omega) (by omega)
  rw [show (17 + n1) + (((n2 - n1 - 1).toNat : Nat) : Int) + 1 = 17 + n2 by omega] at hchain
  obtain ⟨p, q, hp, hq, hpq⟩ := hchain
  obtain ⟨y1, m1, d1⟩ := p
  obtain ⟨y2, m2, d2⟩ := q
  refine ⟨⟨y1, m1, d1, some n1⟩, ⟨y2, m2, d2, some n2⟩, ?_, ?_, ?_⟩
  · unfold convert_ad_to_bs
    rw [if_neg (by omega), hp]
  · unfold convert_ad_to_bs
    rw [if_neg (by omega), hq]
  · exact hpq

/-- C6 witness: the theorem instantiated at the sample table and the first two
in-range ordinals. -/
theorem C6_monotone_witness :
    ∃ s1 s2 : samwat, convert_ad_to_bs sampleTable 0 = .ok s1 ∧
      convert_ad_to_bs sampleTable 1 = .ok s2 ∧ s1.ltSam s2 :=
  C6_monotone sampleTable (fun _ _ => by norm_num [sampleTable]) 0 1
    (by decide) (by decide) (by decide) (by decide) (by decide)

/-! ### Claims C4, C9, C10 -/

/-- C4 counterexample: the claim says `d < g` holds iff the reference
equivalent of `d` is strictly earlier than `g`, but the source compares with
`self.ad <= other`.  At `d = samwat(2001, 1, 1)` (equivalent ordinal 104 under
the sample table) and `g` equal to that very equivalent, `d < g` returns
`True` although `d.ad < g` is false. -/
theorem C4_lt_counterexample :
    samwat.adProp sampleTable ⟨2001, 1, 1, none⟩ = .ok 104 ∧
    samwat.ltDate sampleTable ⟨2001, 1, 1, none⟩ 104 = .ok true ∧
    ¬ (104 : Int) < 104 :=
  ⟨by decide, by decide, by decide⟩

/-- C4 amended: comparison of a `samwat` against a reference date goes through
conversion, with equality deciding `d.ad = g` and the less-than operator
deciding the non-strict `d.ad ≤ g`. -/
theorem C4_compare_via_conversion (T : BsTable) (s : samwat) (g a : Int)
    (h : s.adProp T = .ok a) :
    (s.eqDate T g = .ok true ↔ a = g) ∧ (s.ltDate T g = .ok true ↔ a ≤ g) := by
  unfold samwat.eqDate samwat.ltDate
  rw [h]
  constructor
  · show Except.ok (a == g) = Except.ok true ↔ a = g
    constructor
    · intro hh
      have : (a == g) = true := by injection hh
      exact of_decide_eq_true this
    · intro hh
      rw [hh]
      simp
  · show Except.ok (decide (a ≤ g)) = Except.ok true ↔ a ≤ g
    constructor
    · intro hh
      have : decide (a ≤ g) = true := by injection hh
      exact of_decide_eq_true this
    · intro hh
      rw [decide_eq_true hh]

/-- C4 witness: the amended statement at a concrete in-range date. -/
theorem C4_compare_via_conversion_witness :
    (samwat.eqDate sampleTable ⟨2001, 1, 1, none⟩ 104 = .ok true ↔ (104 : Int) = 104) ∧
    (samwat.ltDate sampleTable ⟨2001, 1, 1, none⟩ 104 = .ok true ↔ (104 : Int) ≤ 104) :=
  C4_compare_via_conversion sampleTable ⟨2001, 1, 1, none⟩ 104 104 (by decide)

/-- C9: `replace` overrides exactly the fields passed as nonzero values; a
field that is omitted (`None`) or passed as zero keeps the original value
(Python truthiness treats 0 as no override).  The original value is untouched
(the embedding is pure; `replace` builds a fresh `samwat`). -/
theorem C9_replace_fields (s : samwat) (oy om od : Option Int) :
    ((oy = none ∨ oy = some 0) → (s.replace oy om od).year = s.year) ∧
    (∀ v : Int, oy = some v → v ≠ 0 → (s.replace oy om od).year = v) ∧
    ((om = none ∨ om = some 0) → (s.replace oy om od).month = s.month) ∧
    (∀ v : Int, om = some v → v ≠ 0 → (s.replace oy om od).month = v) ∧
    ((od = none ∨ od = some 0) → (s.replace oy om od).day = s.day) ∧
    (∀ v : Int, od = some v → v ≠ 0 → (s.replace oy om od).day = v) := by
  refine ⟨?_, ?_, ?_, ?_, ?_, ?_⟩
  · rintro (h | h) <;> subst h <;> simp [samwat.replace, pyOrDefault]
  · intro v h hv; subst h; simp [samwat.replace, pyOrDefault, hv]
  · rintro (h | h) <;> subst h <;> simp [samwat.replace, pyOrDefault]
  · intro v h hv; subst h; simp [samwat.replace, pyOrDefault, hv]
  · rintro (h | h) <;> subst h <;> simp [samwat.replace, pyOrDefault]
  · intro v h hv; subst h; simp [samwat.replace, pyOrDefault, hv]

/-- C9 witness: a nonzero year override is applied, an omitted month and a
zero day keep the original values. -/
theorem C9_replace_fields_witness :
    (samwat.replace ⟨2074, 11, 30, none⟩ (some 2073) none (some 0)).year = 2073 ∧
    (samwat.replace ⟨2074, 11, 30, none⟩ (some 2073) none (some 0)).month = 11 ∧
    (samwat.replace ⟨2074, 11, 30, none⟩ (some 2073) none (some 0)).day = 30 :=
  ⟨(C9_replace_fields ⟨2074, 11, 30, none⟩ (some 2073) none (some 0)).2.1 2073 rfl
      (by decide),
   (C9_replace_fields ⟨2074, 11, 30, none⟩ (some 2073) none (some 0)).2.2.1 (Or.inl rfl),
   (C9_replace_fields ⟨2074, 11, 30, none⟩ (some 2073) none (some 0)).2.2.2.2.1
      (Or.inr rfl)⟩

/-- C10: a cached equivalent supplied at construction is trusted
unconditionally: accessing `.ad` on `samwat(y, m, d, g)` returns exactly `g`
with no conversion and no range validation (the triple and even the year may
be arbitrary), and equality and ordering of that instance against a reference
date are decided by `g` alone, so no range error can arise. -/
theorem C10_cached_trusted (T : BsTable) (y m d g gq : Int) :
    samwat.adProp T ⟨y, m, d, some g⟩ = .ok g ∧
    samwat.eqDate T ⟨y, m, d, some g⟩ gq = .ok (g == gq) ∧
    samwat.ltDate T ⟨y, m, d, some g⟩ gq = .ok (decide (g ≤ gq)) :=
  ⟨rfl, rfl, rfl⟩

/-! ### String lemmas -/

theorem digitChar_isDigit (n : Nat) (h : n < 10) : (Nat.digitChar n).isDigit = true := by
  interval_cases n <;> decide

theorem pyDigitVal_digitChar (n : Nat) (h : n < 10) : pyDigitVal (Nat.digitChar n) = some n := by
  interval_cases n <;> decide

theorem isPyDigit_of_isDigit (c : Char) (h : c.isDigit = true) : isPyDigit c = true := by
  simp [isPyDigit, h]

theorem natToStrAux_fuelEq (f : Nat) : ∀ (g n : Nat), n < f → n < g →
    natToStrAux f n = natToStrAux g n := by
  induction f with
  | zero => intro g n h; omega
  | succ f ih =>
    intro g n hf hg
    match g with
    | g + 1 =>
      show (if n < 10 then _ else _) = (if n < 10 then _ else _)
      by_cases h10 : n < 10
      · rw [if_pos h10, if_pos h10]
      · rw [if_neg h10, if_neg h10]
        have hdiv : n / 10 < n := by omega
        rw [ih g (n / 10) (by omega) (by omega)]

theorem natToStr_small (n : Nat) (h : n < 10) : natToStr n = [Nat.digitChar n] := by
  unfold natToStr
  show (if n < 10 then _ else _) = _
  rw [if_pos h]

theorem natToStr_step (n : Nat) (h : 10 ≤ n) :
    natToStr n = natToStr (n / 10) ++ [Nat.digitChar (n % 10)] := by
  unfold natToStr
  show (if n < 10 then _ else natToStrAux n (n / 10) ++ _) = _
  rw [if_neg (by omega)]
  have : natToStrAux n (n / 10) = natToStrAux (n / 10 + 1) (n / 10) :=
    natToStrAux_fuelEq n (n / 10 + 1) (n / 10) (by omega) (by omega)
  rw [this]

theorem natToStr_isDigit (n : Nat) : ∀ c ∈ natToStr n, c.isDigit = true := by
  induction n using Nat.strong_induction_on with
  | _ n ih =>
    by_cases h : n < 10
    · rw [natToStr_small n h]
      intro c hc
      simp at hc
      rw [hc]
      exact digitChar_isDigit n h
    · rw [natToStr_step n (by omega)]
      intro c hc
      rw [List.mem_append] at hc
      rcases hc with hc | hc
      · exact ih (n / 10) (by omega) c hc
      · simp at hc
        rw [hc]
        exact digitChar_isDigit (n % 10) (by omega)

/- value of a digit string -/

theorem digitsOf_cons (c : Char) (l : List Char) :
    digitsOf (c :: l) =
      match pyDigitVal c, digitsOf l with
      | some d, some ds => some (d :: ds)
      | _, _ => none := rfl

theorem digitsOf_append (u v : List Char) (du dv : List Nat)
    (hu : digitsOf u = some du) (hv : digitsOf v = some dv) :
    digitsOf (u ++ v) = some (du ++ dv) := by
  induction u generalizing du with
  | nil =>
    unfold digitsOf at hu
    injection hu with hu
    subst hu
    simpa using hv
  | cons c r ih =>
    rw [digitsOf_cons] at hu
    cases hpc : pyDigitVal c with
    | none => rw [hpc] at hu; simp at hu
    | some d =>
      rw [hpc] at hu
      cases hr : digitsOf r with
      | none => rw [hr] at hu; simp at hu
      | some ds =>
        rw [hr] at hu
        simp only [Option.some.injEq] at hu
        subst hu
        rw [List.cons_append, digitsOf_cons, hpc, ih ds hr]
        rfl

theorem natToStr_val (n : Nat) : natToStr n ≠ [] ∧ ∃ ds, digitsOf (natToStr n) = some ds ∧
    ds.foldl (fun a d => a * 10 + d) 0 = n := by
  induction n using Nat.strong_induction_on with
  | _ n ih =>
    by_cases h : n < 10
    · rw [natToStr_small n h]
      refine ⟨by simp, [n], ?_, by simp⟩
      rw [digitsOf_cons, pyDigitVal_digitChar n h]
      rfl
    · obtain ⟨hne, ds, hds, hval⟩ := ih (n / 10) (by omega)
      rw [natToStr_step n (by omega)]
      refine ⟨by simp, ds ++ [n % 10], ?_, ?_⟩
      · refine digitsOf_append _ _ _ _ hds ?_
        rw [digitsOf_cons, pyDigitVal_digitChar (n % 10) (by omega)]
        rfl
      · rw [List.foldl_append, hval]
        simp
        omega

theorem strToIntQ_natToStr (n : Nat) : strToIntQ (natToStr n) = some (n : Int) := by
  obtain ⟨hne, ds, hds, hval⟩ := natToStr_val n
  unfold strToIntQ
  rw [if_neg (by simpa using hne), hds]
  simp [hval]

theorem natToStr_four (n : Nat) (h1 : 1000 ≤ n) (h2 : n ≤ 9999) :
    natToStr n = [Nat.digitChar (n / 1000), Nat.digitChar (n / 100 % 10),
      Nat.digitChar (n / 10 % 10), Nat.digitChar (n % 10)] := by
  rw [natToStr_step n (by omega), natToStr_step (n / 10) (by omega),
      natToStr_step (n / 10 / 10) (by omega), natToStr_small (n / 10 / 10 / 10) (by omega)]
  have e1 : n / 10 / 10 / 10 = n / 1000 := by omega
  have e2 : n / 10 / 10 % 10 = n / 100 % 10 := by omega
  have e3 : n / 10 % 10 = n / 10 % 10 := rfl
  rw [e1, e2]
  simp

theorem natToStr_two (n : Nat) (h1 : 10 ≤ n) (h2 : n ≤ 99) :
    natToStr n = [Nat.digitChar (n / 10), Nat.digitChar (n % 10)] := by
  rw [natToStr_step n h1, natToStr_small (n / 10) (by omega)]
  simp

theorem isDigit_ne_pct (c : Char) (h : c.isDigit = true) : c ≠ '%' := by
  intro he
  subst he
  simp at h

theorem zfill2_natToStr (n : Nat) (h1 : 1 ≤ n) (h2 : n ≤ 99) :
    (pyZfill 2 (natToStr n)).length = 2 ∧
    (∀ c ∈ pyZfill 2 (natToStr n), c.isDigit = true) ∧
    strToIntQ (pyZfill 2 (natToStr n)) = some (n : Int) := by
  by_cases h : n < 10
  · rw [natToStr_small n h]
    have hz : pyZfill 2 [Nat.digitChar n] = ['0', Nat.digitChar n] := by
      unfold pyZfill
      rw [if_neg (by simp)]
      rw [if_neg (by
        simp only [List.head?]
        intro hcon
        have hd := digitChar_isDigit n h
        rw [Option.some.injEq] at hcon
        rw [hcon] at hd
        simp at hd)]
      simp
    rw [hz]
    refine ⟨rfl, ?_, ?_⟩
    · intro c hc
      simp at hc
      rcases hc with hc | hc <;> rw [hc]
      · decide
      · exact digitChar_isDigit n h
    · unfold strToIntQ
      rw [if_neg (by simp)]
      rw [digitsOf_cons, digitsOf_cons]
      rw [show pyDigitVal '0' = some 0 from by decide, pyDigitVal_digitChar n h]
      show some (((([0, n].foldl (fun a d => a * 10 + d) 0 : Nat)) : Int)) = _
      simp
  · rw [natToStr_two n (by omega) h2]
    have hz : pyZfill 2 [Nat.digitChar (n / 10), Nat.digitChar (n % 10)] =
        [Nat.digitChar (n / 10), Nat.digitChar (n % 10)] := by
      unfold pyZfill
      rw [if_pos (by simp)]
    rw [hz]
    refine ⟨rfl, ?_, ?_⟩
    · intro c hc
      simp at hc
      rcases hc with hc | hc <;> rw [hc]
      · exact digitChar_isDigit (n / 10) (by omega)
      · exact digitChar_isDigit (n % 10) (by omega)
    · have := strToIntQ_natToStr n
      rw [natToStr_two n (by omega) h2] at this
      exact this

theorem splitLen_append (p : Char → Bool) (u r : List Char) (hu : ∀ c ∈ u, p c = true) :
    splitLen p u.length (u ++ r) = some (u, r) := by
  induction u with
  | nil => rfl
  | cons c t ih =>
    show splitLen p (t.length + 1) (c :: (t ++ r)) = _
    unfold splitLen
    rw [if_pos (hu c (by simp)), ih (fun x hx => hu x (by simp [hx]))]
    rfl

theorem pyReplaceF_append (a : List Char) :
    ∀ (f : Nat) (b pat rep pt : List Char),
      pat = '%' :: pt → (∀ ch ∈ a, ch ≠ '%') → a.length + b.length ≤ f →
      pyReplaceF f (a ++ b) pat rep = a ++ pyReplaceF (f - a.length) b pat rep := by
  induction a with
  | nil => intro f b pat rep pt hp ha hf; simp
  | cons c t ih =>
    intro f b pat rep pt hp ha hf
    match f with
    | 0 => simp at hf
    | f + 1 =>
      have hc : c ≠ '%' := ha c (by simp)
      have hnp : pat.isPrefixOf (c :: (t ++ b)) = false := by
        rw [hp]
        show (('%' == c) && _) = false
        simp
        intro he
        exact absurd he.symm hc
      have hstep : pyReplaceF (f + 1) (c :: (t ++ b)) pat rep =
          c :: pyReplaceF f (t ++ b) pat rep := by
        conv_lhs => unfold pyReplaceF
        rw [hnp]
        simp
      calc pyReplaceF (f + 1) ((c :: t) ++ b) pat rep
          = c :: pyReplaceF f (t ++ b) pat rep := hstep
        _ = c :: (t ++ pyReplaceF (f - t.length) b pat rep) := by
            rw [ih f b pat rep pt hp (fun x hx => ha x (by simp [hx]))
              (by simp only [List.length_cons] at hf; omega)]
        _ = (c :: t) ++ pyReplaceF ((f + 1) - (c :: t).length) b pat rep := by
            rw [show (f + 1) - (c :: t).length = f - t.length from by
              simp only [List.length_cons]; omega]
            simp

theorem lensDesc_kk (k : Nat) : lensDesc k k = [k] := by
  simp [lensDesc, List.range_succ]

theorem pyDigitVal_isPyDigit (c : Char) (v : Nat) (h : pyDigitVal c = some v) :
    isPyDigit c = true := by
  unfold pyDigitVal at h
  unfold isPyDigit
  by_cases h1 : c.isDigit
  · simp [h1]
  · rw [if_neg h1] at h
    by_cases h2 : isDevDigit c
    · simp [h2]
    · rw [if_neg h2] at h
      simp at h

theorem matchItems_digits_step (f : Nat) (nm : GName) (k : Nat) (its : List PatItem)
    (u r : List Char) (hu : ∀ c ∈ u, isPyDigit c = true) (hlu : u.length = k) :
    matchItems (f + 1) (.grp nm (.digits k k) :: its) (u ++ r) =
      (matchItems f its r).map (fun caps => (nm, u) :: caps) := by
  have hsplit : splitLen isPyDigit k (u ++ r) = some (u, r) := by
    rw [← hlu]
    exact splitLen_append isPyDigit u r hu
  simp only [matchItems, lensDesc_kk, firstSomeQ, hsplit, Option.some_bind]
  cases hmi : matchItems f its r with
  | none => rfl
  | some caps => rfl

theorem matchItems_dot_step (f : Nat) (its : List PatItem) (c : Char) (r : List Char)
    (hc : c ≠ '\n') :
    matchItems (f + 1) (.dot :: its) (c :: r) = matchItems f its r := by
  simp only [matchItems]
  rw [if_neg hc]

theorem matchItems_Ymd (Dy Dm Dd : List Char)
    (hy : ∀ c ∈ Dy, isPyDigit c = true) (hly : Dy.length = 4)
    (hm : ∀ c ∈ Dm, isPyDigit c = true) (hlm : Dm.length = 2)
    (hd : ∀ c ∈ Dd, isPyDigit c = true) (hld : Dd.length = 2) :
    matchItems 6 ymdItems (Dy ++ ('-' :: (Dm ++ ('-' :: Dd)))) =
      some [(.y, Dy), (.m, Dm), (.day, Dd)] := by
  show matchItems (5 + 1) (.grp .y (.digits 4 4) ::
    [.dot, .grp .m (.digits 2 2), .dot, .grp .day (.digits 2 2)]) _ = _
  rw [matchItems_digits_step 5 .y 4 _ Dy _ hy hly]
  rw [show (5 : Nat) = 4 + 1 from rfl, matchItems_dot_step 4 _ '-' _ (by decide)]
  rw [show (4 : Nat) = 3 + 1 from rfl, matchItems_digits_step 3 .m 2 _ Dm _ hm hlm]
  rw [show (3 : Nat) = 2 + 1 from rfl, matchItems_dot_step 2 _ '-' _ (by decide)]
  conv_lhs => rw [← List.append_nil Dd]
  rw [show (2 : Nat) = 1 + 1 from rfl, matchItems_digits_step 1 .day 2 _ Dd _ hd hld]
  rfl

theorem parse_Ymd (Dy Dm Dd : List Char) (vy vm vd : Int)
    (hy : ∀ c ∈ Dy, isPyDigit c = true) (hly : Dy.length = 4)
    (hm : ∀ c ∈ Dm, isPyDigit c = true) (hlm : Dm.length = 2)
    (hd : ∀ c ∈ Dd, isPyDigit c = true) (hld : Dd.length = 2)
    (hvy : strToIntQ Dy = some vy) (hvm : strToIntQ Dm = some vm)
    (hvd : strToIntQ Dd = some vd) :
    samwat.parse (Dy ++ ('-' :: (Dm ++ ('-' :: Dd)))) ("%Y-%m-%d".toList) =
      .ok ⟨vy, vm, vd, none⟩ := by
  have hmat := matchItems_Ymd Dy Dm Dd hy hly hm hlm hd hld
  show (match matchItems 6 ymdItems (Dy ++ ('-' :: (Dm ++ ('-' :: Dd)))) with
    | none => Except.error ParseErr.noMatch
    | some caps => parseAfterMatch caps) = _
  rw [hmat]
  show finishParse [(GName.y, DVal.str Dy), (GName.m, DVal.str Dm),
    (GName.day, DVal.str Dd)] = _
  show (match strToIntQ Dy, strToIntQ Dm, strToIntQ Dd with
    | some a, some b, some c => Except.ok (samwat.mk a b c none)
    | _, _, _ => Except.error ParseErr.intFail) = _
  rw [hvy, hvm, hvd]

theorem intToStr_nonneg (i : Int) (h : 0 ≤ i) : intToStr i = natToStr i.toNat := by
  unfold intToStr
  rw [if_neg (by omega)]

theorem intToStr_ne_pct (i : Int) : ∀ c ∈ intToStr i, c ≠ '%' := by
  unfold intToStr
  split
  · intro c hc
    rw [List.mem_cons] at hc
    rcases hc with hc | hc
    · subst hc; decide
    · exact isDigit_ne_pct c (natToStr_isDigit _ c hc)
  · intro c hc
    exact isDigit_ne_pct c (natToStr_isDigit _ c hc)

theorem pyZfill_ne_pct (w : Nat) (s : List Char) (hs : ∀ c ∈ s, c ≠ '%') :
    ∀ c ∈ pyZfill w s, c ≠ '%' := by
  unfold pyZfill
  split
  · exact hs
  · split
    · intro c hc
      rw [List.mem_cons, List.mem_append, List.mem_replicate] at hc
      rcases hc with hc | ⟨_, hc⟩ | hc
      · subst hc; decide
      · subst hc; decide
      · exact hs c (List.mem_of_mem_tail hc)
    · intro c hc
      rw [List.mem_append, List.mem_replicate] at hc
      rcases hc with ⟨_, hc⟩ | hc
      · subst hc; decide
      · exact hs c hc

theorem strftime_Ymd (y m d : Int) :
    samwat.strftime ⟨y, m, d, none⟩ ("%Y-%m-%d".toList) =
      .ok (intToStr y ++ ('-' :: (pyZfill 2 (intToStr m) ++
        ('-' :: pyZfill 2 (intToStr d))))) := by
  have hacc2 : pyReplace (intToStr y ++ "-%m-%d".toList) ("%m".toList)
      (pyZfill 2 (intToStr m)) =
      intToStr y ++ ('-' :: (pyZfill 2 (intToStr m) ++ "-%d".toList)) := by
    unfold pyReplace
    rw [pyReplaceF_append (intToStr y) ((intToStr y ++ "-%m-%d".toList).length)
      ("-%m-%d".toList) ("%m".toList) (pyZfill 2 (intToStr m)) ['m'] rfl
      (intToStr_ne_pct y) (by rw [List.length_append])]
    congr 1
    rw [show (intToStr y ++ "-%m-%d".toList).length - (intToStr y).length = 6 by simp]
    rfl
  have hsplit3 : intToStr y ++ ('-' :: (pyZfill 2 (intToStr m) ++ "-%d".toList)) =
      (intToStr y ++ ('-' :: pyZfill 2 (intToStr m))) ++ "-%d".toList := by
    simp
  have hne3 : ∀ c ∈ intToStr y ++ ('-' :: pyZfill 2 (intToStr m)), c ≠ '%' := by
    intro c hc
    rw [List.mem_append, List.mem_cons] at hc
    rcases hc with hc | hc | hc
    · exact intToStr_ne_pct y c hc
    · subst hc; decide
    · exact pyZfill_ne_pct 2 (intToStr m) (intToStr_ne_pct m) c hc
  have hacc3 : pyReplace ((intToStr y ++ ('-' :: pyZfill 2 (intToStr m))) ++ "-%d".toList)
      ("%d".toList) (pyZfill 2 (intToStr d)) =
      (intToStr y ++ ('-' :: pyZfill 2 (intToStr m))) ++
        ('-' :: (pyZfill 2 (intToStr d) ++ [])) := by
    unfold pyReplace
    rw [pyReplaceF_append (intToStr y ++ ('-' :: pyZfill 2 (intToStr m)))
      (((intToStr y ++ ('-' :: pyZfill 2 (intToStr m))) ++ "-%d".toList).length)
      ("-%d".toList) ("%d".toList) (pyZfill 2 (intToStr d)) ['d'] rfl
      hne3 (by simp; omega)]
    congr 1
    rw [show ((intToStr y ++ ('-' :: pyZfill 2 (intToStr m))) ++ "-%d".toList).length -
      (intToStr y ++ ('-' :: pyZfill 2 (intToStr m))).length = 3 by simp; omega]
    rfl
  show strftimeGo ⟨y, m, d, none⟩ ["%m".toList, "%d".toList]
    (pyReplace ("%Y-%m-%d".toList) ("%Y".toList) (intToStr y)) = _
  rw [show pyReplace ("%Y-%m-%d".toList) ("%Y".toList) (intToStr y) =
    intToStr y ++ "-%m-%d".toList from rfl]
  show strftimeGo ⟨y, m, d, none⟩ ["%d".toList]
    (pyReplace (intToStr y ++ "-%m-%d".toList) ("%m".toList)
      (pyZfill 2 (intToStr m))) = _
  rw [hacc2, hsplit3]
  show strftimeGo ⟨y, m, d, none⟩ []
    (pyReplace ((intToStr y ++ ('-' :: pyZfill 2 (intToStr m))) ++ "-%d".toList)
      ("%d".toList) (pyZfill 2 (intToStr d))) = _
  rw [hacc3]
  show Except.ok _ = _
  congr 1
  simp

theorem matchItems_sy (a b s1 c d s2 e f : Char)
    (ha : isPyDigit a = true) (hb : isPyDigit b = true)
    (hc : isPyDigit c = true) (hd : isPyDigit d = true)
    (he : isPyDigit e = true) (hf : isPyDigit f = true)
    (hs1 : s1 ≠ '\n') (hs2 : s2 ≠ '\n') :
    matchItems 6 syItems [a, b, s1, c, d, s2, e, f] =
      some [(.sy, [a, b]), (.m, [c, d]), (.day, [e, f])] := by
  have hshape : [a, b, s1, c, d, s2, e, f] =
      [a, b] ++ (s1 :: ([c, d] ++ (s2 :: ([e, f] ++ ([] : List Char))))) := by simp
  rw [hshape]
  show matchItems (5 + 1) (.grp .sy (.digits 2 2) ::
    [.dot, .grp .m (.digits 2 2), .dot, .grp .day (.digits 2 2)]) _ = _
  rw [matchItems_digits_step 5 .sy 2 _ [a, b] _
    (by intro x hx; simp at hx; rcases hx with hx | hx <;> subst hx <;> assumption) rfl]
  rw [show (5 : Nat) = 4 + 1 from rfl, matchItems_dot_step 4 _ s1 _ hs1]
  rw [show (4 : Nat) = 3 + 1 from rfl, matchItems_digits_step 3 .m 2 _ [c, d] _
    (by intro x hx; simp at hx; rcases hx with hx | hx <;> subst hx <;> assumption) rfl]
  rw [show (3 : Nat) = 2 + 1 from rfl, matchItems_dot_step 2 _ s2 _ hs2]
  rw [show (2 : Nat) = 1 + 1 from rfl, matchItems_digits_step 1 .day 2 _ [e, f] _
    (by intro x hx; simp at hx; rcases hx with hx | hx <;> subst hx <;> assumption) rfl]
  rfl

theorem strToIntQ_two (u v : Char) (a bq : Nat)
    (hu : pyDigitVal u = some a) (hv : pyDigitVal v = some bq) :
    strToIntQ [u, v] = some (((10 * a + bq : Nat) : Int)) := by
  unfold strToIntQ
  rw [if_neg (by simp)]
  rw [digitsOf_cons, hu, digitsOf_cons, hv]
  show some ((([a, bq].foldl (fun x dq => x * 10 + dq) 0 : Nat) : Int)) = _
  congr 1
  simp
  omega

theorem strToIntQ_20 (u v : Char) (a bq : Nat)
    (hu : pyDigitVal u = some a) (hv : pyDigitVal v = some bq) :
    strToIntQ ('2' :: '0' :: [u, v]) = some (((2000 + 10 * a + bq : Nat) : Int)) := by
  unfold strToIntQ
  rw [if_neg (by simp)]
  rw [digitsOf_cons, show pyDigitVal '2' = some 2 from by decide,
    digitsOf_cons, show pyDigitVal '0' = some 0 from by decide,
    digitsOf_cons, hu, digitsOf_cons, hv]
  show some ((([2, 0, a, bq].foldl (fun x dq => x * 10 + dq) 0 : Nat) : Int)) = _
  congr 1
  simp
  omega

theorem applyMl_ne (d : List (GName × DVal)) : applyMl d ≠ .error .invalidCount := by
  intro hcon
  unfold applyMl at hcon
  split at hcon
  · split at hcon <;> simp at hcon
  · simp at hcon
  · simp at hcon

theorem applySy_ne (d : List (GName × DVal)) : applySy d ≠ .error .invalidCount := by
  intro hcon
  unfold applySy at hcon
  split at hcon
  · split at hcon <;> simp at hcon
  · simp at hcon
  · simp at hcon

theorem applyDev_ne (src dst : GName) (d : List (GName × DVal)) :
    applyDev src dst d ≠ .error .invalidCount := by
  intro hcon
  unfold applyDev at hcon
  split at hcon
  · split at hcon
    · simp at hcon
    · split at hcon <;> simp at hcon
  · simp at hcon
  · simp at hcon

theorem finishParse_ne (d : List (GName × DVal)) : finishParse d ≠ .error .invalidCount := by
  intro hcon
  unfold finishParse at hcon
  split at hcon
  · split at hcon <;> simp at hcon
  · simp at hcon

theorem bind_ne_ic {α β : Type} (x : Except ParseErr α) (g : α → Except ParseErr β)
    (hx : x ≠ .error .invalidCount) (hg : ∀ a, g a ≠ .error .invalidCount) :
    x.bind g ≠ .error .invalidCount := by
  intro hcon
  cases x with
  | error e => exact hx (by simpa [Except.bind] using hcon)
  | ok a => exact hg a (by simpa [Except.bind] using hcon)

theorem parseAfterMatch_ne (caps : List (GName × List Char)) :
    parseAfterMatch caps ≠ .error .invalidCount := by
  unfold parseAfterMatch
  split
  · simp
  · refine bind_ne_ic _ _ (applyMl_ne _) (fun d1 => ?_)
    refine bind_ne_ic _ _ (applySy_ne _) (fun d2 => ?_)
    refine bind_ne_ic _ _ (applyDev_ne _ _ _) (fun d3 => ?_)
    refine bind_ne_ic _ _ (applyDev_ne _ _ _) (fun d4 => ?_)
    exact bind_ne_ic _ _ (applyDev_ne _ _ _) (fun d5 => finishParse_ne _)

theorem collectItems_ne (cs : List (List Char)) :
    collectItems cs ≠ .error .invalidCount := by
  induction cs with
  | nil => simp [collectItems]
  | cons c cs ih =>
    intro hcon
    unfold collectItems at hcon
    split at hcon
    · simp at hcon
    · cases hr : collectItems cs with
      | error e =>
        rw [hr] at hcon
        simp [Except.map] at hcon
        exact ih (by rw [hr, hcon])
      | ok gs => rw [hr] at hcon; simp [Except.map] at hcon

theorem getPatternFromCodes_ne (codes : List (List Char)) :
    getPatternFromCodes codes ≠ .error .invalidCount := by
  unfold getPatternFromCodes
  refine bind_ne_ic _ _ (collectItems_ne codes) (fun gs => ?_)
  show (if _ then _ else _) ≠ _
  split <;> simp

theorem parseRest_ne (codes : List (List Char)) (datestr : List Char) :
    parseRest codes datestr ≠ .error .invalidCount := by
  unfold parseRest
  refine bind_ne_ic _ _ (getPatternFromCodes_ne codes) (fun items => ?_)
  split
  · simp
  · exact parseAfterMatch_ne _

/-! ### Claims C5, C7, C8 -/

/-- C5 amended: parse raises the count `ValueError` exactly when the number of
distinct normalized directive tokens (strip the marker and the modifier and
the `ne` suffix, lowercase) differs from three. -/
theorem C5_count_check (datestr parsestr : List Char) :
    samwat.parse datestr parsestr = .error .invalidCount ↔
      ((tokenize parsestr.length parsestr).map normalizeCode).dedup.length ≠ 3 := by
  unfold samwat.parse
  by_cases h : ((tokenize parsestr.length parsestr).map normalizeCode).dedup.length ≠ 3
  · rw [if_pos h]
    simp only [true_iff]
    exact h
  · rw [if_neg h]
    constructor
    · intro hcon
      exact absurd hcon (parseRest_ne _ _)
    · intro hcon
      exact absurd hcon h

set_option maxRecDepth 20000 in
/-- C5 counterexample: the pattern with a month-name directive, a numeric
month directive and a day directive has only two distinct field categories
(month and day, no year), so the claim as stated requires the count error;
but parse does not raise it (the source counts normalized tokens, and "b" and
"m" count separately, giving three). -/
theorem C5_category_counterexample :
    claimCatCount ("%B-%m-%d".toList) = 2 ∧
    samwat.parse ("Bai-01-05".toList) ("%B-%m-%d".toList) ≠ .error .invalidCount := by
  refine ⟨by decide, by decide⟩

/-- C7: with the lossless pattern (four-digit year, zero-padded two-digit
month and day), formatting any valid in-range `samwat` and parsing the result
with the same pattern returns an equal `samwat` (equal triple, no cache). -/
theorem C7_format_parse_inverse (T : BsTable) (y m d : Int)
    (hy1 : 2000 ≤ y) (hy2 : y ≤ 2089) (hm1 : 1 ≤ m) (hm2 : m ≤ 12)
    (hd1 : 1 ≤ d) (hdT : d ≤ T y m) (hT32 : T y m ≤ 32) :
    ∃ out : List Char,
      samwat.strftime ⟨y, m, d, none⟩ ("%Y-%m-%d".toList) = .ok out ∧
      samwat.parse out ("%Y-%m-%d".toList) = .ok ⟨y, m, d, none⟩ := by
  have hd2 : d ≤ 32 := le_trans hdT hT32
  refine ⟨_, strftime_Ymd y m d, ?_⟩
  rw [intToStr_nonneg y (by omega), intToStr_nonneg m (by omega),
    intToStr_nonneg d (by omega)]
  obtain ⟨hlm, hdm, hvm⟩ := zfill2_natToStr m.toNat (by omega) (by omega)
  obtain ⟨hld, hdd, hvd⟩ := zfill2_natToStr d.toNat (by omega) (by omega)
  have h4 := natToStr_four y.toNat (by omega) (by omega)
  apply parse_Ymd
  · intro c hc
    exact isPyDigit_of_isDigit c (natToStr_isDigit y.toNat c hc)
  · rw [h4]
    rfl
  · intro c hc
    exact isPyDigit_of_isDigit c (hdm c hc)
  · exact hlm
  · intro c hc
    exact isPyDigit_of_isDigit c (hdd c hc)
  · exact hld
  · rw [strToIntQ_natToStr y.toNat]
    congr 1
    omega
  · rw [hvm]
    congr 1
    omega
  · rw [hvd]
    congr 1
    omega

/-- C7 witness: the theorem instantiated at the sample table and a concrete
date. -/
theorem C7_format_parse_inverse_witness :
    ∃ out : List Char,
      samwat.strftime ⟨2073, 7, 28, none⟩ ("%Y-%m-%d".toList) = .ok out ∧
      samwat.parse out ("%Y-%m-%d".toList) = .ok ⟨2073, 7, 28, none⟩ :=
  C7_format_parse_inverse sampleTable 2073 7 28 (by decide) (by decide) (by decide)
    (by decide) (by decide) (by norm_num [sampleTable]) (by norm_num [sampleTable])

/-- C8: parsing with the two-digit-year pattern expands the captured year via
the fixed century prefix: the resulting year is the integer written with the
digits 2, 0 followed by the two captured digits. -/
theorem C8_two_digit_year (a b s1 c d s2 e f : Char) (va vb vc vd ve vf : Nat)
    (ha : pyDigitVal a = some va) (hb : pyDigitVal b = some vb)
    (hc : pyDigitVal c = some vc) (hd : pyDigitVal d = some vd)
    (he : pyDigitVal e = some ve) (hf : pyDigitVal f = some vf)
    (hs1 : s1 ≠ '\n') (hs2 : s2 ≠ '\n') :
    samwat.parse [a, b, s1, c, d, s2, e, f] ("%y-%m-%d".toList) =
      .ok ⟨((2000 + 10 * va + vb : Nat) : Int), ((10 * vc + vd : Nat) : Int),
        ((10 * ve + vf : Nat) : Int), none⟩ := by
  have hmat := matchItems_sy a b s1 c d s2 e f
    (pyDigitVal_isPyDigit a va ha) (pyDigitVal_isPyDigit b vb hb)
    (pyDigitVal_isPyDigit c vc hc) (pyDigitVal_isPyDigit d vd hd)
    (pyDigitVal_isPyDigit e ve he) (pyDigitVal_isPyDigit f vf hf) hs1 hs2
  show (match matchItems 6 syItems [a, b, s1, c, d, s2, e, f] with
    | none => Except.error ParseErr.noMatch
    | some caps => parseAfterMatch caps) = _
  rw [hmat]
  show (applySy [(GName.sy, DVal.str [a, b]), (GName.m, DVal.str [c, d]),
      (GName.day, DVal.str [e, f])]).bind _ = _
  have hsy : applySy [(GName.sy, DVal.str [a, b]), (GName.m, DVal.str [c, d]),
      (GName.day, DVal.str [e, f])] =
      .ok [(GName.y, DVal.int ((2000 + 10 * va + vb : Nat) : Int)),
        (GName.sy, DVal.str [a, b]), (GName.m, DVal.str [c, d]),
        (GName.day, DVal.str [e, f])] := by
    show (match strToIntQ ('2' :: '0' :: [a, b]) with
      | some k => Except.ok (dictSet [(GName.sy, DVal.str [a, b]),
          (GName.m, DVal.str [c, d]), (GName.day, DVal.str [e, f])] GName.y (DVal.int k))
      | none => Except.error ParseErr.intFail) = _
    rw [strToIntQ_20 a b va vb ha hb]
    rfl
  rw [hsy]
  show (match (some ((2000 + 10 * va + vb : Nat) : Int) : Option Int),
      strToIntQ [c, d], strToIntQ [e, f] with
    | some a2, some bm, some bd => Except.ok (samwat.mk a2 bm bd none)
    | _, _, _ => Except.error ParseErr.intFail) = _
  rw [strToIntQ_two c d vc vd hc hd, strToIntQ_two e f ve vf he hf]

/-- C8 witness: parsing the string 73-07-28 with the two-digit-year pattern
yields the year 2073. -/
theorem C8_two_digit_year_witness :
    samwat.parse ("73-07-28".toList) ("%y-%m-%d".toList) =
      .ok ⟨((2000 + 10 * 7 + 3 : Nat) : Int), ((10 * 0 + 7 : Nat) : Int),
        ((10 * 2 + 8 : Nat) : Int), none⟩ :=
  C8_two_digit_year '7' '3' '-' '0' '7' '-' '2' '8' 7 3 0 7 2 8
    (by decide) (by decide) (by decide) (by decide) (by decide) (by decide)
    (by decide) (by decide)
